import Mathlib

/-!
Verification of the bgp_oxide BGP-4 speaker core against its specification.

This file is a shallow embedding of the Rust sources:

* `src/table.rs`   — decision process ordering, path-attribute interning,
  the per-destination heaps and the `walk` operation;
* `src/errors.rs`  — the NOTIFICATION subcode constructors;
* `src/message_types.rs` / `src/msg_encoder.rs` — the message records and
  their octet serializers.

Machine integers (`u8`, `u16`, `u32`, `u64`) are embedded as `Nat`; none of
the embedded operations perform wrapping arithmetic on them (the sole casts,
`as u8` in `Tlv::new` and byte extraction in the serializers, are modelled
with explicit `% 256`).  Rust's `BinaryHeap<Reverse<_>>` is modelled as the
list of its elements: `peek` is the least element under the decision order
(first-occurring among ties), `retain` is `List.filter`, `push` appends.
`Rc` handles are modelled by the values they point to; the strong-count
predicate used by `remove_stale` is expressed through the collection of
handles held by the destination heaps, which are the only holders of clones
of the pool's handles at the point `remove_stale` runs inside `walk`.
-/

namespace BgpOxide

/-- Decidable equality for `Except` results, so that decoder outcomes can be
checked on concrete inputs. -/
instance {ε α : Type} [DecidableEq ε] [DecidableEq α] : DecidableEq (Except ε α) :=
  fun x y =>
    match x, y with
    | .ok a, .ok b =>
      if h : a = b then isTrue (by rw [h])
      else isFalse (fun hc => h (by cases hc; rfl))
    | .error a, .error b =>
      if h : a = b then isTrue (by rw [h])
      else isFalse (fun hc => h (by cases hc; rfl))
    | .ok _, .error _ => isFalse (fun hc => by cases hc)
    | .error _, .ok _ => isFalse (fun hc => by cases hc)

/-- Route source, from `table.rs` (`enum RouteSource`). -/
inductive RouteSource where
  | ebgp
  | ibgp
deriving DecidableEq, Repr

/-- Conversion `From<&RouteSource> for u8` in `table.rs`: Ebgp = 0, Ibgp = 1. -/
def RouteSource.toU8 : RouteSource → Nat
  | .ebgp => 0
  | .ibgp => 1

/-- IP address, v4 or v6, with the address carried as its numeric value
(octet-lexicographic order on octet strings coincides with numeric order).
Mirrors `std::net::IpAddr`. -/
inductive IpAddr where
  | v4 (a : Nat)
  | v6 (a : Nat)
deriving DecidableEq, Repr

/-- Derived ordering of `std::net::IpAddr`: any V4 is below any V6, and
addresses of the same family compare numerically. -/
def IpAddr.cmp : IpAddr → IpAddr → Ordering
  | .v4 a, .v4 b => compare a b
  | .v4 _, .v6 _ => .lt
  | .v6 _, .v4 _ => .gt
  | .v6 a, .v6 b => compare a b

/-- Decision summary, from `table.rs` (`struct DecisionProcessData`).
The field `route_souce` keeps the source's spelling. -/
structure DecisionProcessData where
  local_pref : Option Nat
  as_path_len : Nat
  last_as : Nat
  origin : Nat
  med : Nat
  route_souce : RouteSource
  igp_cost : Nat
  peer_id : Nat
  peer_addr : IpAddr
deriving DecidableEq, Repr

instance : Inhabited DecisionProcessData :=
  ⟨⟨none, 0, 0, 0, 0, .ebgp, 0, 0, .v4 0⟩⟩

/-- The LOCAL_PREF stage of `DecisionProcessData::partial_cmp` in `table.rs`:
when both sides carry a value the comparison is reversed (higher local
preference evaluates to "less than"); when either side is `None` the stage
yields no ordering. -/
def DecisionProcessData.lpStage (a b : DecisionProcessData) : Option Ordering :=
  match a.local_pref, b.local_pref with
  | some left, some right => some (compare right left)
  | none, _ => none
  | _, none => none

/-- The closure `f` inside `DecisionProcessData::partial_cmp` in `table.rs`:
the stages after LOCAL_PREF.  Shortest AS path, lowest origin, then MED
(lower wins) only when `last_as` agrees, then route source, IGP cost,
peer id and peer address, each "lowest wins". -/
def DecisionProcessData.nonLpCmp (a b : DecisionProcessData) : Ordering :=
  let comp := (compare a.as_path_len b.as_path_len).then (compare a.origin b.origin)
  let comp := if a.last_as = b.last_as then comp.then (compare a.med b.med) else comp
  ((((comp.then (compare a.route_souce.toU8 b.route_souce.toU8)).then
      (compare a.igp_cost b.igp_cost)).then
      (compare a.peer_id b.peer_id)).then
      (IpAddr.cmp a.peer_addr b.peer_addr))

/-- Embedding of `DecisionProcessData::partial_cmp` from `table.rs`.  When the
LOCAL_PREF stage produced an ordering it is returned unless it is `Equal`;
when it produced none (mismatched presence) or `Equal`, the remaining stages
decide. -/
def DecisionProcessData.cmpOpt (a b : DecisionProcessData) : Option Ordering :=
  match a.lpStage b with
  | some ord => if ord ≠ .eq then some ord else some (a.nonLpCmp b)
  | none => some (a.nonLpCmp b)

/-- Embedding of `Ord::cmp` for `DecisionProcessData` (`partial_cmp` followed
by `unwrap`; the default is never reached, see the totality theorem). -/
def DecisionProcessData.cmp (a b : DecisionProcessData) : Ordering :=
  (a.cmpOpt b).getD .eq

/-- Path attribute length discriminant, from `path_attrs.rs` / `msg_encoder.rs`
(`PathAttrLen`): one length octet for the standard form, two for extended. -/
inductive PathAttrLen where
  | std (l : Nat)
  | ext (l : Nat)
deriving DecidableEq, Repr

/-- Path attribute record: `(flags, type code, length, value)` as used by
`table.rs` (sorting and equality are on these fields) and serialized by
`PathAttrSerializer` in `msg_encoder.rs`. -/
structure PathAttr where
  attr_flags : Nat
  attr_type_code : Nat
  attr_len : PathAttrLen
  attr_value : List Nat
deriving DecidableEq, Repr

/-- Entry of the path attribute table, from `table.rs`
(`struct PathAttributeTableEntry`). -/
structure PathAttributeTableEntry where
  decision_data : DecisionProcessData
  raw_path_attrs : List PathAttr
deriving DecidableEq, Repr

instance : Inhabited PathAttributeTableEntry := ⟨⟨default, []⟩⟩

/-- Constructor `PathAttributeTableEntry::new`: the raw attributes are sorted
by attribute type code (a stable sort, as `sort_by_cached_key`). -/
def PathAttributeTableEntry.new (decision_data : DecisionProcessData)
    (raw_pas : List PathAttr) : PathAttributeTableEntry :=
  ⟨decision_data, raw_pas.insertionSort (fun a b => a.attr_type_code ≤ b.attr_type_code)⟩

/-- Accessor `PathAttributeTableEntry::get_pas`. -/
def PathAttributeTableEntry.get_pas (e : PathAttributeTableEntry) : List PathAttr :=
  e.raw_path_attrs

/-- Accessor `PathAttributeTableEntry::peer_id`. -/
def PathAttributeTableEntry.peer_id (e : PathAttributeTableEntry) : Nat :=
  e.decision_data.peer_id

/-- Ordering of pool entries (`Ord for PathAttributeTableEntry` in `table.rs`):
it reuses the decision-data order and ignores the raw attributes. -/
def PathAttributeTableEntry.cmpOpt (a b : PathAttributeTableEntry) : Option Ordering :=
  a.decision_data.cmpOpt b.decision_data

/-- Embedding of `Ord::cmp` for `PathAttributeTableEntry`. -/
def PathAttributeTableEntry.cmp (a b : PathAttributeTableEntry) : Ordering :=
  (a.cmpOpt b).getD .eq

/-- Path attribute intern pool (`struct PathAttributeTable` in `table.rs`): a
hash set of shared handles, modelled as the list of interned entries. -/
abbrev PathAttributeTable := List PathAttributeTableEntry

/-- Operation `PathAttributeTable::insert` (`HashSet::get_or_insert`): insert
the entry when no equal entry is interned; the handle handed back to the
caller is the (possibly pre-existing) interned entry. -/
def PathAttributeTable.insert (t : PathAttributeTable) (e : PathAttributeTableEntry) :
    PathAttributeTable :=
  if e ∈ t then t else t ++ [e]

/-- Operation `PathAttributeTable::remove_stale`
(`retain(|rc| Rc::strong_count(rc) > 1)`): an interned handle has strong
count above one exactly when a clone of it is held outside the pool; `refs`
collects those outside holders (the destination heaps). -/
def PathAttributeTable.removeStale (t : PathAttributeTable)
    (refs : List PathAttributeTableEntry) : PathAttributeTable :=
  t.filter (· ∈ refs)

/-- Per-destination path collection (`struct BgpTableEntry` in `table.rs`):
a min-heap under the decision order, modelled as the list of its elements
with `peek` the first-occurring least element. -/
structure BgpTableEntry where
  paths : List PathAttributeTableEntry
deriving DecidableEq, Repr

/-- Constructor `BgpTableEntry::new`: a table entry always starts with the
path it is created from. -/
def BgpTableEntry.new (pa_entry : PathAttributeTableEntry) : BgpTableEntry :=
  ⟨[pa_entry]⟩

/-- Membership walk `BgpTableEntry::is_in`: the heap already holds an equal
entry. -/
def BgpTableEntry.is_in (e : BgpTableEntry) (pa_entry : PathAttributeTableEntry) : Bool :=
  decide (pa_entry ∈ e.paths)

/-- Operation `BgpTableEntry::insert`: push the handle unless an equal entry
is already present; reports whether an insertion happened. -/
def BgpTableEntry.insert (e : BgpTableEntry) (pa_entry : PathAttributeTableEntry) :
    BgpTableEntry × Bool :=
  if e.is_in pa_entry then (e, false) else (⟨e.paths ++ [pa_entry]⟩, true)

/-- Heap peek: the least element under `PathAttributeTableEntry.cmp`, keeping
the earliest among ties (the heap's tie order is unspecified; this model
fixes first occurrence). -/
def heapMin : List PathAttributeTableEntry → Option PathAttributeTableEntry
  | [] => none
  | e :: es => some (es.foldl (fun best x => if x.cmp best = .lt then x else best) e)

/-- Operation `BgpTableEntry::bestpath` (`peek().expect(..)`); the source
panics on an empty entry, modelled by the default entry. -/
def BgpTableEntry.bestpath (e : BgpTableEntry) : PathAttributeTableEntry :=
  (heapMin e.paths).getD default

/-- Operation `BgpTableEntry::remove`: retain exactly the paths whose peer id
differs from the peer id of the given path (RFC 4271 p. 20 match on peer). -/
def BgpTableEntry.remove (e : BgpTableEntry) (path : PathAttributeTableEntry) :
    BgpTableEntry :=
  ⟨e.paths.filter (fun x => x.peer_id ≠ path.peer_id)⟩

/-- Number of paths held for the destination (`BgpTableEntry::len`). -/
def BgpTableEntry.len (e : BgpTableEntry) : Nat :=
  e.paths.length

/-- Route, from `message_types.rs` (`struct Route`).  The source names the
address field `prefix`; it is renamed `pfx` here. -/
structure Route where
  length : Nat
  pfx : IpAddr
deriving DecidableEq, Repr

/-- Constructor `Route::new`. -/
def Route.new (length : Nat) (pfx : IpAddr) : Route := ⟨length, pfx⟩

/-- Accessor `Route::prefix_v4`. -/
def Route.prefixV4 (r : Route) : Option Nat :=
  match r.pfx with
  | .v4 a => some a
  | .v6 _ => none

/-- Inter-service payload handed to the table, from `comms.rs`
(`struct ReceivedRoutes`), with the optional advertised and withdrawn route
lists consumed by `BgpTable::walk`. -/
structure ReceivedRoutes where
  peer_id : Nat
  peer_addr : IpAddr
  last_as : Nat
  local_pref : Option Nat
  as_path_len : Nat
  origin : Nat
  med : Nat
  route_source : RouteSource
  igp_cost : Nat
  path_attrs : List PathAttr
  routes : Option (List Route)
  withdrawn_routes : Option (List Route)

/-- Constructor `DecisionProcessData::new`: copy the decision-relevant fields
out of the payload. -/
def DecisionProcessData.ofPayload (data : ReceivedRoutes) : DecisionProcessData :=
  { local_pref := data.local_pref
    as_path_len := data.as_path_len
    last_as := data.last_as
    origin := data.origin
    med := data.med
    route_souce := data.route_source
    igp_cost := data.igp_cost
    peer_id := data.peer_id
    peer_addr := data.peer_addr }

/-- Advertised-routes accumulator (`struct AdvertisedRoutes` in `table.rs`):
a map from attribute bundle to the routes now best through it, modelled as
an association list. -/
abbrev AdvRoutes := List (List PathAttr × List Route)

/-- Operation `AdvertisedRoutes::entry`: push the route onto the bundle's
vector, creating the binding when absent (the HashMap entry API). -/
def AdvRoutes.entry (m : AdvRoutes) (key : List PathAttr) (pfx : Nat) (prefix_len : Nat) :
    AdvRoutes :=
  if m.any (fun kv => kv.1 = key) then
    m.map (fun kv => if kv.1 = key then (kv.1, kv.2 ++ [Route.new prefix_len (.v4 pfx)]) else kv)
  else
    m ++ [(key, [Route.new prefix_len (.v4 pfx)])]

/-- BGP table keyed by `(prefix, prefix_length)` (`struct BgpTable` in
`table.rs`), with the destination map modelled as an association list with
unique keys. -/
structure BgpTable where
  table : List ((Nat × Nat) × BgpTableEntry)
  table_version : Nat
  pa_table : PathAttributeTable

/-- Association-list lookup standing in for `HashMap::get_mut`. -/
def lookupDest (t : List ((Nat × Nat) × BgpTableEntry)) (k : Nat × Nat) :
    Option BgpTableEntry :=
  (t.find? (fun kv => kv.1 = k)).map (fun kv => kv.2)

/-- Association-list update of an existing key. -/
def updateDest (t : List ((Nat × Nat) × BgpTableEntry)) (k : Nat × Nat)
    (v : BgpTableEntry) : List ((Nat × Nat) × BgpTableEntry) :=
  t.map (fun kv => if kv.1 = k then (k, v) else kv)

/-- Association-list removal standing in for `HashMap::remove`. -/
def eraseDest (t : List ((Nat × Nat) × BgpTableEntry)) (k : Nat × Nat) :
    List ((Nat × Nat) × BgpTableEntry) :=
  t.filter (fun kv => kv.1 ≠ k)

/-- Constructor `BgpTable::new` (IPv4). -/
def BgpTable.new : BgpTable := ⟨[], 0, []⟩

/-- Counter `BgpTable::num_paths`: paths over all destinations. -/
def BgpTable.num_paths (t : BgpTable) : Nat :=
  (t.table.map (fun kv => kv.2.len)).sum

/-- Counter `BgpTable::num_destinations`. -/
def BgpTable.num_destinations (t : BgpTable) : Nat :=
  t.table.length

/-- Counter `BgpTable::num_pa_entries`. -/
def BgpTable.num_pa_entries (t : BgpTable) : Nat :=
  t.pa_table.length

/-- Intermediate state threaded through the route loops of `BgpTable::walk`:
the destination map, the advertised accumulator and the withdrawn list. -/
structure WalkState where
  table : List ((Nat × Nat) × BgpTableEntry)
  adv : AdvRoutes
  removed : List Route

/-- One iteration of the advertised-routes loop of `BgpTable::walk`
(`table.rs` lines 351-375): non-IPv4 destinations are dropped; an existing
destination has the interned handle pushed into its heap (duplicates
suppressed) and is advertised when the handle is now the bestpath; a fresh
destination is created from the handle and always advertised. -/
def advStep (pat : PathAttributeTableEntry) (st : WalkState) (dest : Route) : WalkState :=
  match dest.prefixV4 with
  | none => st
  | some p =>
    match lookupDest st.table (p, dest.length) with
    | some bgp_table_entry =>
      let e' := (bgp_table_entry.insert pat).1
      let adv' := if e'.bestpath = pat then st.adv.entry pat.get_pas p dest.length else st.adv
      { st with table := updateDest st.table (p, dest.length) e', adv := adv' }
    | none =>
      { st with table := st.table ++ [((p, dest.length), BgpTableEntry.new pat)],
                adv := st.adv.entry pat.get_pas p dest.length }

/-- One iteration of the withdrawn-routes loop of `BgpTable::walk`
(`table.rs` lines 377-408): an absent destination is skipped; otherwise all
paths sourced from the payload's peer are removed, the destination is
deleted (and the route recorded as withdrawn) when its heap empties, and
the new bestpath is advertised when the removed peer owned the old one. -/
def withStep (pat : PathAttributeTableEntry) (st : WalkState) (dest : Route) : WalkState :=
  match dest.prefixV4 with
  | none => st
  | some p =>
    match lookupDest st.table (p, dest.length) with
    | some bgp_table_entry =>
      let was_best := bgp_table_entry.bestpath.peer_id = pat.peer_id
      let e' := bgp_table_entry.remove pat
      if e'.paths.isEmpty then
        { st with table := eraseDest st.table (p, dest.length),
                  removed := st.removed ++ [Route.new dest.length (.v4 p)] }
      else if was_best then
        { st with table := updateDest st.table (p, dest.length) e',
                  adv := st.adv.entry e'.bestpath.get_pas p dest.length }
      else
        { st with table := updateDest st.table (p, dest.length) e' }
    | none => st

/-- All pool handles held by the destination heaps; at the point
`remove_stale` runs inside `walk`, these are exactly the outside holders of
strong references into the pool. -/
def heapRefs (t : List ((Nat × Nat) × BgpTableEntry)) : List PathAttributeTableEntry :=
  t.flatMap (fun kv => kv.2.paths)

/-- Embedding of `BgpTable::walk` (`table.rs` lines 329-418): intern the
payload's bundle, run the advertised loop then the withdrawn loop over the
IPv4 routes, sweep stale pool entries, and bump the version when the walk
produced a non-empty delta. -/
def BgpTable.walk (t : BgpTable) (payload : ReceivedRoutes) :
    (List Route × AdvRoutes) × BgpTable :=
  let ddata := DecisionProcessData.ofPayload payload
  let pat := PathAttributeTableEntry.new ddata payload.path_attrs
  let pa1 := t.pa_table.insert pat
  let st0 : WalkState := ⟨t.table, [], []⟩
  let st1 := match payload.routes with
    | some new_paths => (new_paths.filter (fun d => (Route.prefixV4 d).isSome)).foldl (advStep pat) st0
    | none => st0
  let st2 := match payload.withdrawn_routes with
    | some del_paths => (del_paths.filter (fun d => (Route.prefixV4 d).isSome)).foldl (withStep pat) st1
    | none => st1
  let pa2 := pa1.removeStale (heapRefs st2.table)
  let version :=
    if ¬ st2.removed.isEmpty ∨ ¬ st2.adv.isEmpty then t.table_version + 1 else t.table_version
  ((st2.removed, st2.adv), ⟨st2.table, version, pa2⟩)

/-- Stages of the decision order below MED (route source, IGP cost, peer id,
peer address), used to state how the order continues when the MED stage is
skipped or exhausted. -/
def DecisionProcessData.tailCmp (a b : DecisionProcessData) : Ordering :=
  (((compare a.route_souce.toU8 b.route_souce.toU8).then
      (compare a.igp_cost b.igp_cost)).then
      (compare a.peer_id b.peer_id)).then
      (IpAddr.cmp a.peer_addr b.peer_addr)

/-- Concrete summary with no LOCAL_PREF and the longer AS path. -/
def exNoLp : DecisionProcessData :=
  ⟨none, 5, 65000, 0, 0, .ebgp, 0, 1, .v4 1⟩

/-- Concrete summary with a LOCAL_PREF value and the shorter AS path. -/
def exWithLp : DecisionProcessData :=
  ⟨some 100, 1, 65000, 0, 0, .ebgp, 0, 1, .v4 1⟩

/-- Message type tag for the header, from `message_types.rs`
(`enum MessageType`). -/
inductive MessageType where
  | Open
  | Update
  | KeepAlive
  | Notification
deriving DecidableEq, Repr

/-- Wire value constants from `message_types.rs`: `OPEN_VALUE`,
`UPDATE_VALUE`, `KEEP_VALUE`, `NOT_VALUE`. -/
def OPEN_VALUE : Nat := 1

/-- Wire value of an UPDATE message (`UPDATE_VALUE` in `message_types.rs`). -/
def UPDATE_VALUE : Nat := 2

/-- Wire value of a KEEPALIVE message (`KEEP_VALUE` in `message_types.rs`). -/
def KEEP_VALUE : Nat := 3

/-- Wire value of a NOTIFICATION message (`NOT_VALUE` in `message_types.rs`). -/
def NOT_VALUE : Nat := 4

/-- Message header, from `message_types.rs` (`struct Header`). -/
structure Header where
  marker : List Nat
  length : Nat
  message_type : Nat
deriving DecidableEq, Repr

/-- Constructor `Header::new`: the marker is sixteen octets of value 1
(`[1; 16]` in the source) and the type octet is taken from the wire value
constants. -/
def Header.new (length : Nat) (message_type : MessageType) : Header :=
  let mtype := match message_type with
    | .Open => OPEN_VALUE
    | .Update => UPDATE_VALUE
    | .KeepAlive => KEEP_VALUE
    | .Notification => NOT_VALUE
  ⟨List.replicate 16 1, length, mtype⟩

/-- Big-endian octets of a `u16` (`put_u16` of the bytes crate). -/
def u16be (n : Nat) : List Nat := [n / 256 % 256, n % 256]

/-- Big-endian octets of a `u32` (`put_u32`). -/
def u32be (n : Nat) : List Nat :=
  [n / 16777216 % 256, n / 65536 % 256, n / 256 % 256, n % 256]

/-- Big-endian octets of a `u64` (`to_be_bytes` on a 64-bit `usize`). -/
def u64be (n : Nat) : List Nat :=
  u32be (n / 4294967296) ++ u32be n

/-- Embedding of `HeaderSerializer::serialize` from `msg_encoder.rs`:
marker octets, big-endian length, type octet. -/
def HeaderSerializer.serialize (msg : Header) : List Nat :=
  msg.marker ++ u16be msg.length ++ [msg.message_type]

/-- Internal invalid-subcode error, from `errors.rs` (`struct SubcodeError`). -/
structure SubcodeError where
  msg : String
deriving DecidableEq, Repr

/-- NOTIFICATION subcode, from `errors.rs` (`enum NotifErrorSubCode`). -/
inductive NotifErrorSubCode where
  | MessageHeaderError (subcode : Nat)
  | OpenMessageError (subcode : Nat)
  | UpdateMessageError (subcode : Nat)
deriving DecidableEq, Repr

/-- Constructor `NotifErrorSubCode::msg_header_err`: the source accepts the
match arm `1 | 2 | 3` and rejects everything else. -/
def NotifErrorSubCode.msg_header_err (subcode : Nat) :
    Except SubcodeError NotifErrorSubCode :=
  if subcode = 1 ∨ subcode = 2 ∨ subcode = 3 then
    .ok (.MessageHeaderError subcode)
  else
    .error ⟨"Valid values are 1, 2, or 3."⟩

/-- Constructor `NotifErrorSubCode::open_msg_err`: the source accepts the
range pattern `1..=6` and rejects everything else. -/
def NotifErrorSubCode.open_msg_err (subcode : Nat) :
    Except SubcodeError NotifErrorSubCode :=
  if 1 ≤ subcode ∧ subcode ≤ 6 then
    .ok (.OpenMessageError subcode)
  else
    .error ⟨"Valid values are integers 1 through 6."⟩

/-- Constructor `NotifErrorSubCode::update_msg_err`: the source accepts the
range pattern `1..=11` and rejects everything else. -/
def NotifErrorSubCode.update_msg_err (subcode : Nat) :
    Except SubcodeError NotifErrorSubCode :=
  if 1 ≤ subcode ∧ subcode ≤ 11 then
    .ok (.UpdateMessageError subcode)
  else
    .error ⟨"Valid values are integers 1 through 11."⟩

/-- Concrete ORIGIN attribute (flags 0x40, type 1, value Igp). -/
def exPa : PathAttr := ⟨64, 1, .std 1, [0]⟩

/-- Concrete MED attribute (flags 0x80, type 4, value 1000). -/
def exPa2 : PathAttr := ⟨128, 4, .std 4, [0, 0, 3, 232]⟩

/-- Concrete pool entry from peer 1 carrying the ORIGIN attribute. -/
def exEntryA : PathAttributeTableEntry := ⟨exWithLp, [exPa]⟩

/-- Concrete pool entry from peer 1 with no attributes. -/
def exEntryB : PathAttributeTableEntry := ⟨exNoLp, []⟩

/-- Concrete decision summary from peer 2. -/
def exDataP2 : DecisionProcessData := ⟨some 100, 1, 65000, 0, 0, .ebgp, 0, 2, .v4 2⟩

/-- Concrete pool entry from peer 2. -/
def exEntryC : PathAttributeTableEntry := ⟨exDataP2, []⟩

/-- Concrete destination route 100/24 (IPv4). -/
def exRouteW : Route := ⟨24, .v4 100⟩

/-- Concrete walk state holding destination 100/24 with one path from peer 1
and one from peer 2. -/
def exStateW : WalkState := ⟨[((100, 24), ⟨[exEntryA, exEntryC]⟩)], [], []⟩

/-- Concrete second destination route 200/32 (IPv4). -/
def exRoute2 : Route := ⟨32, .v4 200⟩

/-- Concrete payload from peer 1 advertising 100/24 with the ORIGIN
attribute; its decision summary is `exWithLp`. -/
def exPayloadAdv : ReceivedRoutes :=
  ⟨1, .v4 1, 65000, some 100, 1, 0, 0, .ebgp, 0, [exPa], some [exRouteW], none⟩

/-- Concrete payload from peer 1 withdrawing 100/24. -/
def exPayloadWith : ReceivedRoutes :=
  ⟨1, .v4 1, 65000, some 100, 1, 0, 0, .ebgp, 0, [exPa], none, some [exRouteW]⟩

/-- Concrete payload from peer 1 advertising both destinations. -/
def exPayloadAdv2 : ReceivedRoutes :=
  ⟨1, .v4 1, 65000, some 100, 1, 0, 0, .ebgp, 0, [exPa], some [exRouteW, exRoute2], none⟩

/-- Concrete payload from peer 1 withdrawing both destinations. -/
def exPayloadWith2 : ReceivedRoutes :=
  ⟨1, .v4 1, 65000, some 100, 1, 0, 0, .ebgp, 0, [exPa], none, some [exRouteW, exRoute2]⟩

/-- Key of an IPv4 route in the destination map. -/
def keyOf (r : Route) : Nat × Nat := (r.prefixV4.getD 0, r.length)

/-- Concrete payload from peer 1 advertising 100/24 with a different bundle
(the MED attribute and a MED of 5). -/
def exPayloadAdvB : ReceivedRoutes :=
  ⟨1, .v4 1, 65000, some 100, 1, 0, 5, .ebgp, 0, [exPa2], some [exRouteW], none⟩

/-- Concrete payload from peer 1 withdrawing 100/24, carrying the second
bundle. -/
def exPayloadWithB : ReceivedRoutes :=
  ⟨1, .v4 1, 65000, some 100, 1, 0, 5, .ebgp, 0, [exPa2], none, some [exRouteW]⟩

/-- Optional-parameter TLV, from `message_types.rs` (`struct Tlv`). -/
structure Tlv where
  param_type : Nat
  param_length : Nat
  param_value : List Nat
deriving DecidableEq, Repr

/-- Constructor `Tlv::new`: the length field is the value length cast to `u8`
(`as u8` truncates, modelled by `% 256`). -/
def Tlv.new (param_type : Nat) (param_value : List Nat) : Tlv :=
  ⟨param_type, param_value.length % 256, param_value⟩

/-- OPEN message, from `message_types.rs` (`struct Open`). -/
structure Open where
  version : Nat
  my_as : Nat
  holdtime : Nat
  bgp_id : Nat
  opt_params_len : Nat
  opt_params : List Tlv
deriving DecidableEq, Repr

/-- Constructor chain `OpenBuilder::new(..).opt_param(..)*.build()`: the
optional-parameters length is 0 with no parameters and otherwise the sum of
2 + value-length over the parameters. -/
def OpenBuilder.build (bgp_ver my_as holdtime bgp_id : Nat) (opt_params : List Tlv) :
    Open :=
  let opt_len := match opt_params.length with
    | 0 => 0
    | _ => (opt_params.map (fun tlv => 2 + tlv.param_length)).sum
  ⟨bgp_ver, my_as, holdtime, bgp_id, opt_len, opt_params⟩

/-- Octets of a TLV list as written by `OpenSerializer::serialize`:
type octet, length octet, then the value octets, per parameter. -/
def serializeTlvs (tlvs : List Tlv) : List Nat :=
  tlvs.flatMap (fun tlv => tlv.param_type :: tlv.param_length :: tlv.param_value)

/-- Embedding of `OpenSerializer::serialize` from `msg_encoder.rs`: version,
big-endian AS and hold time, big-endian identifier, the parameters length
octet, then the TLVs — which are skipped entirely when the length field
is 0. -/
def OpenSerializer.serialize (msg : Open) : List Nat :=
  [msg.version] ++ u16be msg.my_as ++ u16be msg.holdtime ++ u32be msg.bgp_id ++
    [msg.opt_params_len] ++
    (match msg.opt_params_len with
     | 0 => []
     | _ + 1 => serializeTlvs msg.opt_params)

/-- NOTIFICATION error code with its subcode payload, as consumed by
`Notification::new` in `message_types.rs`. -/
inductive NotifErrorCode where
  | MessageHeaderError (subcode : Nat)
  | OpenMessageError (subcode : Nat)
  | UpdateMessageError (subcode : Nat)
  | HoldTimerExpired
  | FiniteStateMachineError
  | Cease
deriving DecidableEq, Repr

/-- Wire code of a notification error (`From<NotifErrorCode> for u8` in
`errors.rs`): 1..6 in declaration order. -/
def NotifErrorCode.toU8 : NotifErrorCode → Nat
  | .MessageHeaderError _ => 1
  | .OpenMessageError _ => 2
  | .UpdateMessageError _ => 3
  | .HoldTimerExpired => 4
  | .FiniteStateMachineError => 5
  | .Cease => 6

/-- Wire subcode of a notification error: the payload for the three subcoded
classes and 0 otherwise (RFC 4271 p. 21, as in `Notification::new`). -/
def NotifErrorCode.subcodeU8 : NotifErrorCode → Nat
  | .MessageHeaderError s => s
  | .OpenMessageError s => s
  | .UpdateMessageError s => s
  | _ => 0

/-- NOTIFICATION message, from `message_types.rs` (`struct Notification`). -/
structure Notification where
  err_code : Nat
  err_subcode : Nat
  data : List Nat
deriving DecidableEq, Repr

/-- Constructor `Notification::new`: extract code and subcode and store the
`usize` datum as its eight big-endian octets. -/
def Notification.new (error : NotifErrorCode) (data : Nat) : Notification :=
  ⟨error.toU8, error.subcodeU8, u64be data⟩

/-- Embedding of `NotificationSerializer::serialize` from `msg_encoder.rs`:
code octet, subcode octet, then the data octets. -/
def NotificationSerializer.serialize (msg : Notification) : List Nat :=
  msg.err_code :: msg.err_subcode :: msg.data

/-- Embedding of `RouteSerializer::serialize` from `msg_encoder.rs`: the
prefix length octet followed by every octet of the address (four for IPv4,
sixteen for IPv6) — the full address, not only the prefix octets. -/
def RouteSerializer.serialize (msg : Route) : List Nat :=
  msg.length :: (match msg.pfx with
    | .v4 x => u32be x
    | .v6 x => u64be (x / 18446744073709551616) ++ u64be x)

/-- Embedding of `PathAttrSerializer::serialize` from `msg_encoder.rs`: flags
octet, type octet, one or two length octets by the Std/Ext form, then the
value octets. -/
def PathAttrSerializer.serialize (msg : PathAttr) : List Nat :=
  msg.attr_flags :: msg.attr_type_code ::
    ((match msg.attr_len with
      | .std x => [x]
      | .ext x => u16be x) ++ msg.attr_value)

/-- Modelled from the spec: decoder failure kinds.  `lib.rs` declares a
`msg_decoder` module that is not among the sources, so the decoder side is
reconstructed from §4.1 of the specification: `ConnNotSynced` for a bad
marker, `BadMsgLen` for a length outside 19..4096, `BadMsgType` for an
unknown type octet, and a truncation kind for exhausted input. -/
inductive DecodeErr where
  | ConnNotSynced
  | BadMsgLen
  | BadMsgType
  | Truncated
deriving DecidableEq, Repr

/-- Modelled from the spec: header decoding per §4.1 — 19 octets, the marker
must be sixteen 0xFF octets (all-ones; anything else is `ConnNotSynced`),
the big-endian length must lie in 19..4096, and the type octet must be one
of the four message codes. -/
def decodeHeader (bs : List Nat) : Except DecodeErr (Header × List Nat) :=
  if bs.length < 19 then .error .Truncated
  else
    let marker := bs.take 16
    let l := 256 * bs.getD 16 0 + bs.getD 17 0
    let ty := bs.getD 18 0
    if marker ≠ List.replicate 16 255 then .error .ConnNotSynced
    else if l < 19 ∨ 4096 < l then .error .BadMsgLen
    else if ty < 1 ∨ 4 < ty then .error .BadMsgType
    else .ok (⟨marker, l, ty⟩, bs.drop 19)

/-- Modelled from the spec: optional-parameter TLV region decoding — each
parameter is a type octet, a length octet and that many value octets; the
fuel bounds the number of parameters. -/
def decodeTlvs : Nat → List Nat → Except DecodeErr (List Tlv)
  | _, [] => .ok []
  | 0, _ :: _ => .error .Truncated
  | fuel + 1, t :: l :: rest =>
    if rest.length < l then .error .Truncated
    else do
      let tlvs ← decodeTlvs fuel (rest.drop l)
      .ok (⟨t, l, rest.take l⟩ :: tlvs)
  | _ + 1, [_] => .error .Truncated

/-- Modelled from the spec: OPEN body decoding per §4.1 — version, big-endian
`my_as` and hold time, big-endian identifier, the parameters length octet,
then exactly that many octets of TLVs. -/
def decodeOpen (bs : List Nat) : Except DecodeErr (Open × List Nat) :=
  match bs with
  | ver :: a1 :: a2 :: h1 :: h2 :: b1 :: b2 :: b3 :: b4 :: plen :: rest =>
    if rest.length < plen then .error .Truncated
    else do
      let tlvs ← decodeTlvs plen (rest.take plen)
      .ok (⟨ver, 256 * a1 + a2, 256 * h1 + h2,
            ((b1 * 256 + b2) * 256 + b3) * 256 + b4, plen, tlvs⟩, rest.drop plen)
  | _ => .error .Truncated

/-- Modelled from the spec: NOTIFICATION body decoding per §4.1 — code octet,
subcode octet, and the remainder as the data field. -/
def decodeNotification (bs : List Nat) : Except DecodeErr Notification :=
  match bs with
  | c :: s :: data => .ok ⟨c, s, data⟩
  | _ => .error .Truncated

/-- Modelled from the spec: path attribute decoding per §3 — flags octet,
type octet, extended two-octet length exactly when flags bit 4 is set and
one octet otherwise, then that many value octets. -/
def decodePathAttr (bs : List Nat) : Except DecodeErr (PathAttr × List Nat) :=
  match bs with
  | flags :: ty :: rest =>
    if flags.testBit 4 then
      match rest with
      | l1 :: l2 :: rest2 =>
        let l := 256 * l1 + l2
        if rest2.length < l then .error .Truncated
        else .ok (⟨flags, ty, .ext l, rest2.take l⟩, rest2.drop l)
      | _ => .error .Truncated
    else
      match rest with
      | l :: rest2 =>
        if rest2.length < l then .error .Truncated
        else .ok (⟨flags, ty, .std l, rest2.take l⟩, rest2.drop l)
      | _ => .error .Truncated
  | _ => .error .Truncated

/-- Modelled from the spec: IPv4 route decoding per §3 — the serialized form
is the prefix length octet followed by `⌈prefix_length / 8⌉` address
octets, zero-padded to the full address. -/
def decodeRouteV4 (bs : List Nat) : Except DecodeErr (Route × List Nat) :=
  match bs with
  | len :: rest =>
    let n := (len + 7) / 8
    if rest.length < n then .error .Truncated
    else
      let octs := rest.take n ++ List.replicate (4 - n) 0
      .ok (⟨len, .v4 (octs.foldl (fun acc b => 256 * acc + b) 0)⟩, rest.drop n)
  | [] => .error .Truncated

/-- Concrete IPv4 route 192.168.1.7/24, whose address carries bits beyond
the prefix length. -/
def exRouteHost : Route := ⟨24, .v4 3232235783⟩

end BgpOxide

namespace BgpOxide

theorem Ordering.eq_then (o : Ordering) : Ordering.eq.then o = o := rfl

theorem ordering_then_assoc (a b c : Ordering) : (a.then b).then c = a.then (b.then c) := by
  cases a <;> rfl

/-- Helper: whenever the LOCAL_PREF stage does not decide (it is skipped for
mismatched presence, or yields equality), `cmp` is the remaining-stage
comparison. -/
theorem cmp_eq_nonLpCmp {a b : DecisionProcessData}
    (h : a.lpStage b = none ∨ a.lpStage b = some .eq) :
    a.cmp b = a.nonLpCmp b := by
  rcases h with h | h <;>
    simp [DecisionProcessData.cmp, DecisionProcessData.cmpOpt, h]

/-- Helper: `cmpOpt` never returns `none`, and `cmp` is its value. -/
theorem cmpOpt_total (a b : DecisionProcessData) : a.cmpOpt b = some (a.cmp b) := by
  unfold DecisionProcessData.cmp DecisionProcessData.cmpOpt
  cases a.lpStage b with
  | none => rfl
  | some o => by_cases h : o = Ordering.eq <;> simp [h]

/-- C1 counterexample: the claim makes a summary with `local_pref = None`
compare smaller than one with `Some`, but on these two summaries — where
exactly one side has `None` — the code continues to the AS-path-length
stage and the `None` side compares greater, not smaller. -/
theorem c1_counterexample :
    exNoLp.local_pref = none ∧ exWithLp.local_pref = some 100 ∧
      exNoLp.cmp exWithLp = .gt ∧ ¬ exNoLp.cmp exWithLp = .lt := by
  refine ⟨rfl, rfl, by decide, by decide⟩

/-- C1 amended: LOCAL_PREF is the first stage of the order and is compared
reversed, deciding whenever both sides carry distinct values; when both
sides carry the same value, and likewise when at least one side is `None`
(so in particular when exactly one side is `None`), the LOCAL_PREF stage
yields no decision and the later stages determine the order. -/
theorem c1_amended (a b : DecisionProcessData) :
    (∀ x y : Nat, a.local_pref = some x → b.local_pref = some y → x ≠ y →
        a.cmp b = compare y x) ∧
    (∀ x : Nat, a.local_pref = some x → b.local_pref = some x →
        a.cmp b = a.nonLpCmp b) ∧
    ((a.local_pref = none ∨ b.local_pref = none) → a.cmp b = a.nonLpCmp b) := by
  refine ⟨?_, ?_, ?_⟩
  · intro x y hx hy hne
    have hcmp : compare y x ≠ Ordering.eq := by
      simpa [Nat.compare_eq_eq] using fun h => hne h.symm
    simp [DecisionProcessData.cmp, DecisionProcessData.cmpOpt,
      DecisionProcessData.lpStage, hx, hy, hcmp]
  · intro x hx hy
    exact cmp_eq_nonLpCmp (Or.inr (by
      simp [DecisionProcessData.lpStage, hx, hy, Nat.compare_eq_eq]))
  · intro h
    refine cmp_eq_nonLpCmp (Or.inl ?_)
    rcases h with h | h <;>
      · cases ha : a.local_pref <;> cases hb : b.local_pref <;>
          simp_all [DecisionProcessData.lpStage]
/-- C1 amended witness at the concrete summaries. -/
theorem c1_amended_witness :
    exNoLp.cmp exWithLp = exNoLp.nonLpCmp exWithLp ∧
      exWithLp.cmp exWithLp = exWithLp.nonLpCmp exWithLp := by
  exact ⟨(c1_amended exNoLp exWithLp).2.2 (Or.inl rfl),
    (c1_amended exWithLp exWithLp).2.1 100 rfl rfl⟩

/-- C2: when the LOCAL_PREF stage does not decide and the AS-path-length and
ORIGIN stages are ties, the MED fields are compared — lower MED wins —
exactly when the two `last_as` fields agree; when they differ the decision
order ignores both MED fields entirely and the subsequent stages (route
source, IGP cost, peer id, peer address) decide. -/
theorem c2_med_gated_by_last_as (a b : DecisionProcessData)
    (hlp : a.lpStage b = none ∨ a.lpStage b = some .eq)
    (hlen : a.as_path_len = b.as_path_len) (horig : a.origin = b.origin) :
    (a.last_as = b.last_as →
        a.cmp b = (compare a.med b.med).then (a.tailCmp b)) ∧
    (a.last_as = b.last_as → a.med < b.med → a.cmp b = .lt) ∧
    (a.last_as ≠ b.last_as → ∀ m₁ m₂ : Nat,
        DecisionProcessData.cmp { a with med := m₁ } { b with med := m₂ } =
          a.tailCmp b) := by
  have hbase : ∀ m₁ m₂ : Nat,
      DecisionProcessData.nonLpCmp { a with med := m₁ } { b with med := m₂ } =
        (if a.last_as = b.last_as then (compare m₁ m₂).then (a.tailCmp b)
         else a.tailCmp b) := by
    intro m₁ m₂
    have hs : ∀ n : Nat, compare n n = Ordering.eq := fun n => Nat.compare_eq_eq.mpr rfl
    unfold DecisionProcessData.nonLpCmp DecisionProcessData.tailCmp
    simp only [hlen, horig, hs, Ordering.eq_then]
    by_cases hl : a.last_as = b.last_as <;>
      simp [hl, ordering_then_assoc, Ordering.eq_then]
  have hself : ∀ m₁ m₂ : Nat,
      DecisionProcessData.cmp { a with med := m₁ } { b with med := m₂ } =
        DecisionProcessData.nonLpCmp { a with med := m₁ } { b with med := m₂ } := by
    intro m₁ m₂
    refine cmp_eq_nonLpCmp ?_
    have : DecisionProcessData.lpStage { a with med := m₁ } { b with med := m₂ } =
        a.lpStage b := rfl
    rw [this]; exact hlp
  have hcmp : a.cmp b = a.nonLpCmp b := cmp_eq_nonLpCmp hlp
  have hab : a.nonLpCmp b =
      (if a.last_as = b.last_as then (compare a.med b.med).then (a.tailCmp b)
       else a.tailCmp b) := hbase a.med b.med
  refine ⟨?_, ?_, ?_⟩
  · intro hl
    rw [hcmp, hab, if_pos hl]
  · intro hl hmed
    rw [hcmp, hab, if_pos hl]
    have : compare a.med b.med = .lt := by
      simpa [Nat.compare_eq_lt] using hmed
    simp [this, Ordering.then]
  · intro hl m₁ m₂
    rw [hself, hbase, if_neg hl]

/-- C2 witness: concrete instances of the spec's MED scenario.  With equal
`last_as`, MED 0 beats MED 1000; with differing `last_as`, MED is skipped
and the IGP-cost stage decides despite the larger MED. -/
theorem c2_med_gated_by_last_as_witness :
    DecisionProcessData.cmp ⟨some 100, 1, 65000, 0, 0, .ebgp, 0, 1, .v4 1⟩
        ⟨some 100, 1, 65000, 0, 1000, .ebgp, 0, 1, .v4 1⟩ = .lt ∧
      DecisionProcessData.cmp ⟨some 100, 1, 65001, 0, 1000, .ebgp, 0, 1, .v4 1⟩
        ⟨some 100, 1, 65000, 0, 0, .ebgp, 5, 1, .v4 1⟩ = .lt := by
  constructor
  · exact (c2_med_gated_by_last_as
      ⟨some 100, 1, 65000, 0, 0, .ebgp, 0, 1, .v4 1⟩
      ⟨some 100, 1, 65000, 0, 1000, .ebgp, 0, 1, .v4 1⟩
      (Or.inr (by decide)) rfl rfl).2.1 rfl (by decide)
  · have h := (c2_med_gated_by_last_as
      ⟨some 100, 1, 65001, 0, 1000, .ebgp, 0, 1, .v4 1⟩
      ⟨some 100, 1, 65000, 0, 0, .ebgp, 5, 1, .v4 1⟩
      (Or.inr (by decide)) rfl rfl).2.2 (by decide) 1000 0
    simpa using h.trans (by decide)

/-- C10: the decision order is total — `partial_cmp` returns `Some` on every
pair of summaries (the mismatched-LOCAL_PREF arm falls through to the
remaining stages instead of yielding incomparability), so the `unwrap`
inside `Ord::cmp` never panics, for `DecisionProcessData` and for the
interned `PathAttributeTableEntry` values stored in the heaps alike. -/
theorem c10_order_total :
    (∀ a b : DecisionProcessData, a.cmpOpt b = some (a.cmp b)) ∧
      (∀ e₁ e₂ : PathAttributeTableEntry, e₁.cmpOpt e₂ = some (e₁.cmp e₂)) := by
  refine ⟨cmpOpt_total, ?_⟩
  intro e₁ e₂
  simp [PathAttributeTableEntry.cmp, PathAttributeTableEntry.cmpOpt, cmpOpt_total]

/-- C6 counterexample: serializing `Header::new(100, Open)` yields a marker of
sixteen 0x01 octets, not the sixteen 0xFF octets the claim requires. -/
theorem c6_counterexample :
    HeaderSerializer.serialize (Header.new 100 .Open) =
        List.replicate 16 1 ++ [0, 100, 1] ∧
      HeaderSerializer.serialize (Header.new 100 .Open) ≠
        List.replicate 16 255 ++ [0, 100, 1] := by
  exact ⟨by decide, by decide⟩

/-- C6 amended: every serialized header is exactly 19 octets — a 16-octet
marker of all-0x01 bytes, the big-endian u16 length, then the type octet
using codes 1 = Open, 2 = Update, 3 = Keepalive, 4 = Notification; in
particular encoding Header(100, Open) yields sixteen 0x01 octets followed
by 0x00, 0x64, 0x01. -/
theorem c6_amended (l : Nat) (mt : MessageType) (hl : l < 65536) :
    HeaderSerializer.serialize (Header.new l mt) =
        List.replicate 16 1 ++ [l / 256, l % 256] ++
          [match mt with
            | .Open => 1 | .Update => 2 | .KeepAlive => 3 | .Notification => 4] ∧
      (HeaderSerializer.serialize (Header.new l mt)).length = 19 := by
  have hdiv : l / 256 % 256 = l / 256 := by
    apply Nat.mod_eq_of_lt
    omega
  constructor
  · cases mt <;>
      simp [HeaderSerializer.serialize, Header.new, u16be, hdiv,
        OPEN_VALUE, UPDATE_VALUE, KEEP_VALUE, NOT_VALUE]
  · cases mt <;> simp [HeaderSerializer.serialize, Header.new, u16be]

/-- C6 amended witness: the literal spec scenario at length 100, type Open. -/
theorem c6_amended_witness :
    HeaderSerializer.serialize (Header.new 100 .Open) =
        List.replicate 16 1 ++ [100 / 256, 100 % 256] ++ [1] ∧
      (HeaderSerializer.serialize (Header.new 100 .Open)).length = 19 :=
  c6_amended 100 .Open (by decide)

/-- C7 counterexample: the claim excludes subcode 5 for Open and subcode 7
for Update, but both constructors accept them. -/
theorem c7_counterexample :
    NotifErrorSubCode.open_msg_err 5 = .ok (.OpenMessageError 5) ∧
      NotifErrorSubCode.update_msg_err 7 = .ok (.UpdateMessageError 7) :=
  ⟨rfl, rfl⟩

/-- C7 amended: constructing a Message-Header, Open or Update notification
subcode succeeds exactly for Message Header {1..3}, Open {1..6} (including
5) and Update {1..11} (including 7), and any subcode outside these ranges
is rejected with the internal invalid-subcode error. -/
theorem c7_amended (n : Nat) :
    ((∃ s, NotifErrorSubCode.msg_header_err n = .ok s) ↔ 1 ≤ n ∧ n ≤ 3) ∧
    ((∃ s, NotifErrorSubCode.open_msg_err n = .ok s) ↔ 1 ≤ n ∧ n ≤ 6) ∧
    ((∃ s, NotifErrorSubCode.update_msg_err n = .ok s) ↔ 1 ≤ n ∧ n ≤ 11) ∧
    (¬ (1 ≤ n ∧ n ≤ 3) → ∃ e, NotifErrorSubCode.msg_header_err n = .error e) ∧
    (¬ (1 ≤ n ∧ n ≤ 6) → ∃ e, NotifErrorSubCode.open_msg_err n = .error e) ∧
    (¬ (1 ≤ n ∧ n ≤ 11) → ∃ e, NotifErrorSubCode.update_msg_err n = .error e) := by
  refine ⟨?_, ?_, ?_, ?_, ?_, ?_⟩ <;>
    · simp only [NotifErrorSubCode.msg_header_err, NotifErrorSubCode.open_msg_err,
        NotifErrorSubCode.update_msg_err]
      split_ifs with h <;> simp_all <;> omega

/-- C8: the interning pool holds no two equal entries — this is preserved by
`insert`, which hands back the pre-existing handle (the pool is unchanged)
when an equal entry is already interned — and `remove_stale` keeps exactly
the entries still referenced from outside the pool (strong count above
one), dropping the rest. -/
theorem c8_interning (t : PathAttributeTable) (e : PathAttributeTableEntry)
    (refs : List PathAttributeTableEntry) (hnd : t.Nodup) :
    (t.insert e).Nodup ∧ e ∈ t.insert e ∧ (e ∈ t → t.insert e = t) ∧
      (t.removeStale refs).Nodup ∧
      ∀ x, x ∈ t.removeStale refs ↔ x ∈ t ∧ x ∈ refs := by
  refine ⟨?_, ?_, ?_, ?_, ?_⟩
  · unfold PathAttributeTable.insert
    split_ifs with h
    · exact hnd
    · simp [List.nodup_append, hnd, h]
  · unfold PathAttributeTable.insert
    split_ifs with h
    · exact h
    · simp
  · intro h
    simp [PathAttributeTable.insert, h]
  · exact hnd.filter _
  · intro x
    simp [PathAttributeTable.removeStale, List.mem_filter]

/-- C8 witness: inserting a fresh entry into a one-entry pool keeps the pool
duplicate-free, re-inserting an interned entry leaves the pool unchanged,
and sweeping with peer-2's entry unreferenced retains exactly peer-1's. -/
theorem c8_interning_witness :
    (PathAttributeTable.insert [exEntryA] exEntryC).Nodup ∧
      PathAttributeTable.insert [exEntryA, exEntryC] exEntryA = [exEntryA, exEntryC] ∧
      (exEntryA ∈ PathAttributeTable.removeStale [exEntryA, exEntryC] [exEntryA] ↔
        exEntryA ∈ [exEntryA, exEntryC] ∧ exEntryA ∈ [exEntryA]) :=
  ⟨(c8_interning [exEntryA] exEntryC [] (by decide)).1,
   (c8_interning [exEntryA, exEntryC] exEntryA [] (by decide)).2.2.1 (by decide),
   (c8_interning [exEntryA, exEntryC] exEntryA [exEntryA] (by decide)).2.2.2.2 exEntryA⟩

theorem lookupDest_cons (kv : (Nat × Nat) × BgpTableEntry)
    (t : List ((Nat × Nat) × BgpTableEntry)) (k : Nat × Nat) :
    lookupDest (kv :: t) k = if kv.1 = k then some kv.2 else lookupDest t k := by
  by_cases h : kv.1 = k <;> simp [lookupDest, List.find?_cons, h]

theorem lookupDest_update_present (t : List ((Nat × Nat) × BgpTableEntry))
    (k : Nat × Nat) (v e : BgpTableEntry) (h : lookupDest t k = some e) :
    lookupDest (updateDest t k v) k = some v := by
  induction t with
  | nil => simp [lookupDest] at h
  | cons kv t ih =>
    rw [lookupDest_cons] at h
    by_cases hk : kv.1 = k
    · simp [updateDest, lookupDest_cons, hk]
    · rw [if_neg hk] at h
      simpa [updateDest, lookupDest_cons, hk] using ih h

theorem updateDest_cons (kv : (Nat × Nat) × BgpTableEntry)
    (t : List ((Nat × Nat) × BgpTableEntry)) (k : Nat × Nat) (v : BgpTableEntry) :
    updateDest (kv :: t) k v =
      (if kv.1 = k then (k, v) else kv) :: updateDest t k v := by
  simp only [updateDest, List.map_cons]

theorem eraseDest_cons (kv : (Nat × Nat) × BgpTableEntry)
    (t : List ((Nat × Nat) × BgpTableEntry)) (k : Nat × Nat) :
    eraseDest (kv :: t) k =
      if kv.1 = k then eraseDest t k else kv :: eraseDest t k := by
  by_cases hk : kv.1 = k <;> simp [eraseDest, List.filter_cons, hk]

theorem lookupDest_update_other (t : List ((Nat × Nat) × BgpTableEntry))
    (k k' : Nat × Nat) (v : BgpTableEntry) (h : k' ≠ k) :
    lookupDest (updateDest t k v) k' = lookupDest t k' := by
  induction t with
  | nil => simp [lookupDest, updateDest]
  | cons kv t ih =>
    rw [updateDest_cons]
    by_cases hk : kv.1 = k
    · simp [lookupDest_cons, hk, Ne.symm h, ih]
    · by_cases hk' : kv.1 = k' <;> simp [lookupDest_cons, hk, hk', ih, h]

theorem lookupDest_erase_self (t : List ((Nat × Nat) × BgpTableEntry))
    (k : Nat × Nat) : lookupDest (eraseDest t k) k = none := by
  induction t with
  | nil => simp [lookupDest, eraseDest]
  | cons kv t ih =>
    rw [eraseDest_cons]
    by_cases hk : kv.1 = k <;> simp [lookupDest_cons, hk, ih]

theorem lookupDest_erase_other (t : List ((Nat × Nat) × BgpTableEntry))
    (k k' : Nat × Nat) (h : k' ≠ k) :
    lookupDest (eraseDest t k) k' = lookupDest t k' := by
  induction t with
  | nil => simp [lookupDest, eraseDest]
  | cons kv t ih =>
    rw [eraseDest_cons]
    by_cases hk : kv.1 = k
    · have hne : kv.1 ≠ k' := by rw [hk]; exact Ne.symm h
      simp [lookupDest_cons, hk, hne, ih, Ne.symm h]
    · by_cases hk' : kv.1 = k' <;> simp [lookupDest_cons, hk, hk', ih, h]

/-- Helper: characterization of one withdrawal iteration on a present
destination. -/
theorem withStep_present (pat : PathAttributeTableEntry) (st : WalkState)
    (dest : Route) (p : Nat) (e : BgpTableEntry) (hv4 : dest.pfx = .v4 p)
    (h : lookupDest st.table (p, dest.length) = some e) :
    withStep pat st dest =
      if (e.remove pat).paths.isEmpty then
        { st with table := eraseDest st.table (p, dest.length),
                  removed := st.removed ++ [Route.new dest.length (.v4 p)] }
      else if e.bestpath.peer_id = pat.peer_id then
        { st with table := updateDest st.table (p, dest.length) (e.remove pat),
                  adv := st.adv.entry (e.remove pat).bestpath.get_pas p dest.length }
      else
        { st with table := updateDest st.table (p, dest.length) (e.remove pat) } := by
  have hp4 : dest.prefixV4 = some p := by simp [Route.prefixV4, hv4]
  simp only [withStep, hp4, h]

/-- Helper: one withdrawal iteration on an absent destination is the
identity. -/
theorem withStep_absent (pat : PathAttributeTableEntry) (st : WalkState)
    (dest : Route) (p : Nat) (hv4 : dest.pfx = .v4 p)
    (h : lookupDest st.table (p, dest.length) = none) :
    withStep pat st dest = st := by
  have hp4 : dest.prefixV4 = some p := by simp [Route.prefixV4, hv4]
  simp only [withStep, hp4, h]

/-- C3: a withdrawal for peer p removes, at its destination, exactly the
paths whose source peer id is p, regardless of their attribute bundle; the
destination is deleted and the route recorded as withdrawn exactly when
every path there came from p; otherwise the destination keeps the
surviving paths and the new bestpath's attributes are advertised for the
route precisely when the previous bestpath came from p; every other
destination is untouched, and a withdrawal for an absent destination
changes nothing. -/
theorem c3_withdrawal_by_peer (pat : PathAttributeTableEntry) (st : WalkState)
    (dest : Route) (p : Nat) (hv4 : dest.pfx = .v4 p) :
    (lookupDest st.table (p, dest.length) = none → withStep pat st dest = st) ∧
    ∀ e, lookupDest st.table (p, dest.length) = some e →
      (∀ q, q ∈ (e.remove pat).paths ↔ q ∈ e.paths ∧ q.peer_id ≠ pat.peer_id) ∧
      ((∀ q ∈ e.paths, q.peer_id = pat.peer_id) →
        lookupDest (withStep pat st dest).table (p, dest.length) = none ∧
        (withStep pat st dest).removed =
          st.removed ++ [Route.new dest.length (.v4 p)] ∧
        (withStep pat st dest).adv = st.adv) ∧
      ((∃ q ∈ e.paths, q.peer_id ≠ pat.peer_id) →
        lookupDest (withStep pat st dest).table (p, dest.length) =
          some (e.remove pat) ∧
        (withStep pat st dest).removed = st.removed ∧
        (e.bestpath.peer_id = pat.peer_id →
          (withStep pat st dest).adv =
            st.adv.entry (e.remove pat).bestpath.get_pas p dest.length) ∧
        (e.bestpath.peer_id ≠ pat.peer_id →
          (withStep pat st dest).adv = st.adv)) ∧
      (∀ k', k' ≠ (p, dest.length) →
        lookupDest (withStep pat st dest).table k' = lookupDest st.table k') := by
  constructor
  · exact withStep_absent pat st dest p hv4
  intro e he
  have hstep := withStep_present pat st dest p e hv4 he
  have hmem : ∀ q, q ∈ (e.remove pat).paths ↔ q ∈ e.paths ∧ q.peer_id ≠ pat.peer_id := by
    intro q
    simp [BgpTableEntry.remove, List.mem_filter]
  refine ⟨hmem, ?_, ?_, ?_⟩
  · intro hall
    have hpaths : (e.remove pat).paths =
        e.paths.filter (fun x => x.peer_id ≠ pat.peer_id) := rfl
    have hempty : (e.remove pat).paths.isEmpty := by
      rw [hpaths, List.isEmpty_iff, List.filter_eq_nil_iff]
      intro q hq
      simp [hall q hq]
    rw [hstep, if_pos hempty]
    exact ⟨lookupDest_erase_self st.table (p, dest.length), rfl, rfl⟩
  · intro hsome
    have hne : ¬ (e.remove pat).paths.isEmpty := by
      obtain ⟨q, hq, hqp⟩ := hsome
      have : q ∈ (e.remove pat).paths := (hmem q).mpr ⟨hq, hqp⟩
      intro hemp
      rw [List.isEmpty_iff] at hemp
      simp [hemp] at this
    rw [hstep, if_neg hne]
    by_cases hb : e.bestpath.peer_id = pat.peer_id <;>
      simp [hb, lookupDest_update_present st.table (p, dest.length) _ e he]
  · intro k' hk'
    rw [hstep]
    split_ifs with h1 h2 <;>
      simp [lookupDest_erase_other st.table _ k' hk',
        lookupDest_update_other st.table _ k' _ hk']

/-- C3 witness: at a destination holding paths from peers 1 and 2, a
withdrawal from peer 1 keeps the destination with exactly peer-2's path. -/
theorem c3_withdrawal_by_peer_witness :
    lookupDest (withStep exEntryA exStateW exRouteW).table (100, 24) =
        some (BgpTableEntry.remove ⟨[exEntryA, exEntryC]⟩ exEntryA) ∧
      (withStep exEntryA exStateW exRouteW).removed = [] := by
  have h := ((c3_withdrawal_by_peer exEntryA exStateW exRouteW 100 rfl).2
    ⟨[exEntryA, exEntryC]⟩ (by decide)).2.2.1 ⟨exEntryC, by decide, by decide⟩
  exact ⟨h.1, h.2.1⟩

/-- Helper: inserting an already-present path into a destination entry is
suppressed as a duplicate. -/
theorem bgpEntry_insert_of_mem (e : BgpTableEntry) (pat : PathAttributeTableEntry)
    (h : pat ∈ e.paths) : e.insert pat = (e, false) := by
  simp [BgpTableEntry.insert, BgpTableEntry.is_in, h]

/-- Helper: updating an absent key changes nothing. -/
theorem updateDest_absent (t : List ((Nat × Nat) × BgpTableEntry)) (k : Nat × Nat)
    (v : BgpTableEntry) (h : k ∉ t.map Prod.fst) : updateDest t k v = t := by
  induction t with
  | nil => rfl
  | cons kv t ih =>
    simp only [List.map_cons, List.mem_cons] at h
    push_neg at h
    rw [updateDest_cons, if_neg (fun hh => h.1 hh.symm), ih h.2]

/-- Helper: writing back the value a unique key already holds is the
identity. -/
theorem updateDest_self (t : List ((Nat × Nat) × BgpTableEntry)) (k : Nat × Nat)
    (e : BgpTableEntry) (hnd : (t.map Prod.fst).Nodup)
    (h : lookupDest t k = some e) : updateDest t k e = t := by
  induction t with
  | nil => rfl
  | cons kv t ih =>
    rw [lookupDest_cons] at h
    simp only [List.map_cons, List.nodup_cons] at hnd
    by_cases hk : kv.1 = k
    · rw [if_pos hk] at h
      have hkv : (k, e) = kv := by
        obtain ⟨h1, h2⟩ := Prod.mk.injEq kv.1 kv.2 kv.1 kv.2 ▸ rfl
        cases kv with
        | mk k1 v1 => simp at h hk; rw [← hk, ← h]
      rw [updateDest_cons, if_pos hk, hkv,
        updateDest_absent t k e (by rw [← hk]; exact hnd.1)]
    · rw [if_neg hk] at h
      rw [updateDest_cons, if_neg hk, ih hnd.2 h]

/-- Helper: characterization of one advertisement iteration on a present
destination. -/
theorem advStep_present (pat : PathAttributeTableEntry) (st : WalkState)
    (dest : Route) (p : Nat) (e : BgpTableEntry) (hv4 : dest.pfx = .v4 p)
    (h : lookupDest st.table (p, dest.length) = some e) :
    advStep pat st dest =
      { st with table := updateDest st.table (p, dest.length) (e.insert pat).1,
                adv := if (e.insert pat).1.bestpath = pat then
                    st.adv.entry pat.get_pas p dest.length
                  else st.adv } := by
  have hp4 : dest.prefixV4 = some p := by simp [Route.prefixV4, hv4]
  simp only [advStep, hp4, h]

/-- Helper: characterization of one advertisement iteration on a fresh
destination. -/
theorem advStep_absent (pat : PathAttributeTableEntry) (st : WalkState)
    (dest : Route) (p : Nat) (hv4 : dest.pfx = .v4 p)
    (h : lookupDest st.table (p, dest.length) = none) :
    advStep pat st dest =
      { st with table := st.table ++ [((p, dest.length), BgpTableEntry.new pat)],
                adv := st.adv.entry pat.get_pas p dest.length } := by
  have hp4 : dest.prefixV4 = some p := by simp [Route.prefixV4, hv4]
  simp only [advStep, hp4, h]

/-- C4 counterexample: from the empty table, advertising 100/24 from peer 1
and then re-advertising the identical bundle from the same peer yields a
second delta whose advertised map is non-empty and bumps the table
version — the re-advertisement is not a no-op delta. -/
theorem c4_counterexample :
    ((BgpTable.new.walk exPayloadAdv).2.walk exPayloadAdv).1.2 ≠ ([] : AdvRoutes) ∧
      ((BgpTable.new.walk exPayloadAdv).2.walk exPayloadAdv).2.table_version = 2 ∧
      (BgpTable.new.walk exPayloadAdv).2.table_version = 1 := by
  refine ⟨by decide, by decide, by decide⟩

/-- C4 amended: re-advertising an identical attribute bundle to the same
(peer, prefix) leaves the table contents untouched — destination map, path
heaps and interning pool are all unchanged — and returns an empty
withdrawn list; but the delta is empty and the version unchanged only when
the bundle is not the destination's current bestpath: when it is, the walk
re-emits the bundle with the prefix into the advertised map and increments
table_version. -/
theorem c4_amended (t : BgpTable) (pd : ReceivedRoutes) (r : Route) (p : Nat)
    (e : BgpTableEntry) (pat : PathAttributeTableEntry)
    (hpat : pat = PathAttributeTableEntry.new (DecisionProcessData.ofPayload pd)
      pd.path_attrs)
    (hroutes : pd.routes = some [r]) (hwith : pd.withdrawn_routes = none)
    (hv4 : r.pfx = .v4 p)
    (hlook : lookupDest t.table (p, r.length) = some e)
    (hkeys : (t.table.map Prod.fst).Nodup)
    (hmem : pat ∈ e.paths)
    (hpa : pat ∈ t.pa_table)
    (hwf : ∀ x ∈ t.pa_table, x ∈ heapRefs t.table) :
    (t.walk pd).1.1 = [] ∧
      (t.walk pd).2.table = t.table ∧
      (t.walk pd).2.pa_table = t.pa_table ∧
      (t.walk pd).1.2 =
        (if e.bestpath = pat then [(pat.get_pas, [Route.new r.length (.v4 p)])]
         else []) ∧
      (t.walk pd).2.table_version =
        (if e.bestpath = pat then t.table_version + 1 else t.table_version) := by
  have hp4 : r.prefixV4 = some p := by simp [Route.prefixV4, hv4]
  have hfold : ([r].filter (fun d => (Route.prefixV4 d).isSome)) = [r] := by
    simp [hp4]
  have hins := bgpEntry_insert_of_mem e pat hmem
  have hstep := advStep_present pat ⟨t.table, [], []⟩ r p e hv4 hlook
  rw [hins] at hstep
  have hupd := updateDest_self t.table (p, r.length) e hkeys hlook
  have hst1 : (([r].filter (fun d => (Route.prefixV4 d).isSome)).foldl
      (advStep pat) ⟨t.table, [], []⟩) =
      ⟨t.table, if e.bestpath = pat then
          AdvRoutes.entry [] pat.get_pas p r.length else [], []⟩ := by
    rw [hfold]
    simp only [List.foldl_cons, List.foldl_nil, hstep, hupd]
  have hadv : AdvRoutes.entry [] pat.get_pas p r.length =
      [(pat.get_pas, [Route.new r.length (.v4 p)])] := by
    simp [AdvRoutes.entry]
  have hpains : PathAttributeTable.insert t.pa_table pat = t.pa_table := by
    simp [PathAttributeTable.insert, hpa]
  have hpafil : PathAttributeTable.removeStale t.pa_table (heapRefs t.table) =
      t.pa_table := by
    unfold PathAttributeTable.removeStale
    rw [List.filter_eq_self]
    intro a ha
    simpa using hwf a ha
  simp only [BgpTable.walk, hroutes, hwith, ← hpat, hst1, hpains, hpafil]
  by_cases hb : e.bestpath = pat
  · simp [hb, hadv]
  · simp [hb]

/-- C4 amended witness: at the concrete one-destination table produced by
advertising 100/24 from peer 1, re-advertising the same bundle leaves the
table identical but re-emits the bundle (it is the bestpath) and bumps the
version. -/
theorem c4_amended_witness :
    ((BgpTable.new.walk exPayloadAdv).2.walk exPayloadAdv).1.1 = [] ∧
      ((BgpTable.new.walk exPayloadAdv).2.walk exPayloadAdv).2.table =
        (BgpTable.new.walk exPayloadAdv).2.table := by
  have h := c4_amended (BgpTable.new.walk exPayloadAdv).2 exPayloadAdv exRouteW 100
    ⟨[exEntryA]⟩ exEntryA (by decide) rfl rfl rfl (by decide) (by decide)
    (by decide) (by decide) (by decide)
  exact ⟨h.1, h.2.1⟩

theorem lookupDest_append_left_none (a b : List ((Nat × Nat) × BgpTableEntry))
    (k : Nat × Nat) (h : lookupDest a k = none) :
    lookupDest (a ++ b) k = lookupDest b k := by
  induction a with
  | nil => simp
  | cons kv a ih =>
    rw [lookupDest_cons] at h
    by_cases hk : kv.1 = k
    · simp [hk] at h
    · rw [if_neg hk] at h
      rw [List.cons_append, lookupDest_cons, if_neg hk, ih h]

theorem lookupDest_singleton_ne (kv : (Nat × Nat) × BgpTableEntry) (k : Nat × Nat)
    (h : kv.1 ≠ k) : lookupDest [kv] k = none := by
  simp [lookupDest, List.find?, h]

theorem eraseDest_append (a b : List ((Nat × Nat) × BgpTableEntry)) (k : Nat × Nat) :
    eraseDest (a ++ b) k = eraseDest a k ++ eraseDest b k := by
  simp [eraseDest, List.filter_append]

theorem eraseDest_of_lookup_none (a : List ((Nat × Nat) × BgpTableEntry))
    (k : Nat × Nat) (h : lookupDest a k = none) : eraseDest a k = a := by
  induction a with
  | nil => rfl
  | cons kv a ih =>
    rw [lookupDest_cons] at h
    by_cases hk : kv.1 = k
    · simp [hk] at h
    · rw [if_neg hk] at h
      rw [eraseDest_cons, if_neg hk, ih h]

theorem lookupDest_of_key_not_mem (a : List ((Nat × Nat) × BgpTableEntry))
    (k : Nat × Nat) (h : k ∉ a.map Prod.fst) : lookupDest a k = none := by
  induction a with
  | nil => rfl
  | cons kv a ih =>
    simp only [List.map_cons, List.mem_cons] at h
    push_neg at h
    rw [lookupDest_cons, if_neg (fun hh => h.1 hh.symm)]
    exact ih h.2

theorem heapRefs_append (a b : List ((Nat × Nat) × BgpTableEntry)) :
    heapRefs (a ++ b) = heapRefs a ++ heapRefs b := by
  simp [heapRefs]

/-- Helper: any element of the pool survives `insert`. -/
theorem mem_patInsert_of_mem (pa : PathAttributeTable)
    (x y : PathAttributeTableEntry) (h : x ∈ pa) : x ∈ pa.insert y := by
  unfold PathAttributeTable.insert
  split_ifs <;> simp [h]

/-- Helper: sweeping drops a freshly interned entry that nothing references,
so the sweep cancels the insert. -/
theorem removeStale_insert_cancel (pa : PathAttributeTable)
    (x : PathAttributeTableEntry) (refs : List PathAttributeTableEntry)
    (h : x ∈ refs → x ∈ pa) :
    (pa.insert x).removeStale refs = pa.removeStale refs := by
  unfold PathAttributeTable.insert
  split_ifs with hx
  · rfl
  · unfold PathAttributeTable.removeStale
    rw [List.filter_append]
    have : x ∉ refs := fun hr => hx (h hr)
    simp [this]

/-- Helper: sweeping a pool whose every entry is referenced changes
nothing. -/
theorem removeStale_eq_self (pa : PathAttributeTable)
    (refs : List PathAttributeTableEntry) (h : ∀ e ∈ pa, e ∈ refs) :
    pa.removeStale refs = pa := by
  unfold PathAttributeTable.removeStale
  rw [List.filter_eq_self]
  intro a ha
  simpa using h a ha

/-- Helper: an IPv4 route is reassembled unchanged from its key. -/
theorem route_reassemble (r : Route) (h : (Route.prefixV4 r).isSome) :
    Route.new r.length (.v4 (keyOf r).1) = r := by
  cases r with
  | mk len pfx =>
    cases pfx with
    | v4 a => simp [Route.new, keyOf, Route.prefixV4]
    | v6 a => simp [Route.prefixV4] at h

/-- Helper: the advertisement loop over fresh IPv4 destinations appends one
single-path entry per route and accumulates every route into the
advertised map under the interned bundle. -/
theorem advLoop_fresh (pat : PathAttributeTableEntry) :
    ∀ (S : List Route) (base : List ((Nat × Nat) × BgpTableEntry))
      (adv : AdvRoutes) (rem : List Route),
      (∀ r ∈ S, (Route.prefixV4 r).isSome) →
      (∀ r ∈ S, lookupDest base (keyOf r) = none) →
      (S.map keyOf).Nodup →
      S.foldl (advStep pat) ⟨base, adv, rem⟩ =
        ⟨base ++ S.map (fun r => (keyOf r, BgpTableEntry.new pat)),
         S.foldl (fun m r => AdvRoutes.entry m pat.get_pas (keyOf r).1 r.length) adv,
         rem⟩ := by
  intro S
  induction S with
  | nil => intro base adv rem _ _ _; simp
  | cons r S ih =>
    intro base adv rem hv4 habs hnd
    obtain ⟨p, hp⟩ : ∃ p, r.pfx = IpAddr.v4 p := by
      have h := hv4 r (by simp)
      cases hpr : r.pfx with
      | v4 a => exact ⟨a, rfl⟩
      | v6 a => rw [Route.prefixV4, hpr] at h; simp at h
    have hkey : keyOf r = (p, r.length) := by
      simp [keyOf, Route.prefixV4, hp]
    have habs0 : lookupDest base (p, r.length) = none := hkey ▸ habs r (by simp)
    rw [List.foldl_cons, advStep_absent pat ⟨base, adv, rem⟩ r p hp habs0]
    simp only [List.map_cons, List.nodup_cons] at hnd
    have habs' : ∀ r' ∈ S, lookupDest
        (base ++ [((p, r.length), BgpTableEntry.new pat)]) (keyOf r') = none := by
      intro r' hr'
      rw [lookupDest_append_left_none _ _ _ (habs r' (by simp [hr']))]
      refine lookupDest_singleton_ne _ _ ?_
      intro hcontra
      apply hnd.1
      have hkk : keyOf r = keyOf r' := by rw [hkey]; exact hcontra
      rw [hkk]
      exact List.mem_map_of_mem keyOf hr'
    rw [ih (base ++ [((p, r.length), BgpTableEntry.new pat)]) _ rem
      (fun r' hr' => hv4 r' (by simp [hr'])) habs' hnd.2]
    simp [hkey, List.append_assoc]

/-- Helper: accumulating IPv4 routes under one bundle key extends that key's
vector in order. -/
theorem advAccum (key : List PathAttr) :
    ∀ (S : List Route) (acc : List Route),
      (∀ r ∈ S, (Route.prefixV4 r).isSome) →
      S.foldl (fun m r => AdvRoutes.entry m key (keyOf r).1 r.length) [(key, acc)] =
        [(key, acc ++ S)] := by
  intro S
  induction S with
  | nil => intro acc _; simp
  | cons r S ih =>
    intro acc hv4
    have hstep : AdvRoutes.entry [(key, acc)] key (keyOf r).1 r.length =
        [(key, acc ++ [r])] := by
      simp [AdvRoutes.entry, route_reassemble r (hv4 r (by simp))]
    rw [List.foldl_cons, hstep, ih (acc ++ [r]) (fun r' hr' => hv4 r' (by simp [hr']))]
    simp

/-- Helper: the withdrawal loop from the owning peer deletes every
freshly-created single-path destination, restores the untouched part of
the map, and records each route as withdrawn in order. -/
theorem withLoop_all (pat2 pat : PathAttributeTableEntry)
    (hpeer : pat.peer_id = pat2.peer_id) :
    ∀ (S : List Route) (pre : List ((Nat × Nat) × BgpTableEntry))
      (adv : AdvRoutes) (rem : List Route),
      (∀ r ∈ S, (Route.prefixV4 r).isSome) →
      (∀ r ∈ S, lookupDest pre (keyOf r) = none) →
      (S.map keyOf).Nodup →
      S.foldl (withStep pat2)
          ⟨pre ++ S.map (fun r => (keyOf r, BgpTableEntry.new pat)), adv, rem⟩ =
        ⟨pre, adv, rem ++ S⟩ := by
  intro S
  induction S with
  | nil => intro pre adv rem _ _ _; simp
  | cons r S ih =>
    intro pre adv rem hv4 habs hnd
    obtain ⟨p, hp⟩ : ∃ p, r.pfx = IpAddr.v4 p := by
      have h := hv4 r (by simp)
      cases hpr : r.pfx with
      | v4 a => exact ⟨a, rfl⟩
      | v6 a => rw [Route.prefixV4, hpr] at h; simp at h
    have hkey : keyOf r = (p, r.length) := by
      simp [keyOf, Route.prefixV4, hp]
    simp only [List.map_cons, List.nodup_cons] at hnd
    have hlook : lookupDest
        (pre ++ (keyOf r, BgpTableEntry.new pat) ::
          S.map (fun r => (keyOf r, BgpTableEntry.new pat))) (keyOf r) =
        some (BgpTableEntry.new pat) := by
      rw [lookupDest_append_left_none _ _ _ (habs r (by simp)), lookupDest_cons, if_pos rfl]
    have hpeer' : pat.decision_data.peer_id = pat2.decision_data.peer_id := hpeer
    have hremove : (BgpTableEntry.new pat).remove pat2 = ⟨[]⟩ := by
      simp [BgpTableEntry.remove, BgpTableEntry.new, List.filter_cons,
        PathAttributeTableEntry.peer_id, hpeer']
    have hstep := withStep_present pat2
      ⟨pre ++ (keyOf r, BgpTableEntry.new pat) ::
        S.map (fun r => (keyOf r, BgpTableEntry.new pat)), adv, rem⟩
      r p (BgpTableEntry.new pat) hp (hkey ▸ hlook)
    rw [hremove] at hstep
    have herase : eraseDest
        (pre ++ (keyOf r, BgpTableEntry.new pat) ::
          S.map (fun r => (keyOf r, BgpTableEntry.new pat))) (p, r.length) =
        pre ++ S.map (fun r => (keyOf r, BgpTableEntry.new pat)) := by
      rw [← hkey, eraseDest_append, eraseDest_of_lookup_none pre _ (habs r (by simp)),
        eraseDest_cons, if_pos rfl,
        eraseDest_of_lookup_none _ _ (lookupDest_of_key_not_mem _ _ (by
          simpa [List.map_map, Function.comp] using hnd.1))]
    rw [List.map_cons, List.foldl_cons, hstep, if_pos (by simp)]
    dsimp only
    rw [herase]
    rw [ih pre adv (rem ++ [Route.new r.length (.v4 p)])
      (fun r' hr' => hv4 r' (by simp [hr']))
      (fun r' hr' => habs r' (by simp [hr'])) hnd.2]
    have hre : Route.new r.length (.v4 p) = r := by
      have h0 := route_reassemble r (hv4 r (by simp))
      rw [hkey] at h0
      simpa using h0
    rw [hre]
    simp

/-- Helper: membership in the pool after an insert comes from the old pool or
is the inserted entry. -/
theorem mem_of_mem_patInsert (pa : PathAttributeTable)
    (x y : PathAttributeTableEntry) (h : x ∈ pa.insert y) : x ∈ pa ∨ x = y := by
  unfold PathAttributeTable.insert at h
  split_ifs at h with hy
  · exact Or.inl h
  · rcases List.mem_append.mp h with h | h
    · exact Or.inl h
    · exact Or.inr (by simpa using h)

/-- C5 counterexample: the claim quantifies over every starting table state,
but from a table where peer 1 already holds 100/24 with one bundle,
advertising S = [100/24] from peer 1 with a second bundle and then
withdrawing S removes the pre-existing path too (withdrawal matches on
peer only), so num_paths ends at 0 instead of its pre-walk value 1. -/
theorem c5_counterexample :
    (((BgpTable.new.walk exPayloadAdv).2.walk exPayloadAdvB).2.walk
        exPayloadWithB).2.num_paths = 0 ∧
      (BgpTable.new.walk exPayloadAdv).2.num_paths = 1 ∧
      ¬ (((BgpTable.new.walk exPayloadAdv).2.walk exPayloadAdvB).2.walk
          exPayloadWithB).2.num_paths =
        (BgpTable.new.walk exPayloadAdv).2.num_paths := by
  refine ⟨by decide, by decide, by decide⟩

/-- C5: for every list S of IPv4 routes over pairwise distinct destinations
none of which is yet in the table, and every well-formed starting state
(each pool entry referenced by some destination heap and conversely),
walk(advertise S) followed by walk(withdraw S) from the same peer restores
the destination map, the interning pool, and hence num_destinations,
num_paths and num_pa_entries, to their values before the first walk; the
withdrawn list of the second walk is exactly S, and the first walk
advertised exactly S under the interned bundle. -/
theorem c5_advertise_withdraw_roundtrip
    (t : BgpTable) (p1 p2 : ReceivedRoutes) (S : List Route)
    (pat1 : PathAttributeTableEntry)
    (hpat1 : pat1 = PathAttributeTableEntry.new (DecisionProcessData.ofPayload p1)
      p1.path_attrs)
    (hr1 : p1.routes = some S) (hw1 : p1.withdrawn_routes = none)
    (hr2 : p2.routes = none) (hw2 : p2.withdrawn_routes = some S)
    (hpeer : p2.peer_id = p1.peer_id)
    (hv4 : ∀ r ∈ S, (Route.prefixV4 r).isSome)
    (habs : ∀ r ∈ S, lookupDest t.table (keyOf r) = none)
    (hnd : (S.map keyOf).Nodup)
    (hwf1 : ∀ x ∈ t.pa_table, x ∈ heapRefs t.table)
    (hwf2 : ∀ x ∈ heapRefs t.table, x ∈ t.pa_table) :
    ((t.walk p1).2.walk p2).2.table = t.table ∧
      ((t.walk p1).2.walk p2).2.pa_table = t.pa_table ∧
      ((t.walk p1).2.walk p2).2.num_destinations = t.num_destinations ∧
      ((t.walk p1).2.walk p2).2.num_paths = t.num_paths ∧
      ((t.walk p1).2.walk p2).2.num_pa_entries = t.num_pa_entries ∧
      ((t.walk p1).2.walk p2).1.1 = S ∧
      (t.walk p1).1.2 = (if S.isEmpty then [] else [(pat1.get_pas, S)]) := by
  subst hpat1
  have hfilter : S.filter (fun d => (Route.prefixV4 d).isSome) = S :=
    List.filter_eq_self.mpr (fun r hr => by simpa using hv4 r hr)
  have hpeer2 : (PathAttributeTableEntry.new (DecisionProcessData.ofPayload p1)
        p1.path_attrs).peer_id =
      (PathAttributeTableEntry.new (DecisionProcessData.ofPayload p2)
        p2.path_attrs).peer_id := by
    simp [PathAttributeTableEntry.new, PathAttributeTableEntry.peer_id,
      DecisionProcessData.ofPayload, hpeer]
  cases S with
  | nil =>
    have hpa1 : (t.pa_table.insert (PathAttributeTableEntry.new
          (DecisionProcessData.ofPayload p1) p1.path_attrs)).removeStale
        (heapRefs t.table) = t.pa_table := by
      rw [removeStale_insert_cancel _ _ _ (fun h => hwf2 _ h),
        removeStale_eq_self _ _ hwf1]
    have hw1eq : t.walk p1 = (([], []), ⟨t.table, t.table_version, t.pa_table⟩) := by
      simp only [BgpTable.walk, hr1, hw1]
      simp [hpa1]
    have hpa2 : (t.pa_table.insert (PathAttributeTableEntry.new
          (DecisionProcessData.ofPayload p2) p2.path_attrs)).removeStale
        (heapRefs t.table) = t.pa_table := by
      rw [removeStale_insert_cancel _ _ _ (fun h => hwf2 _ h),
        removeStale_eq_self _ _ hwf1]
    have hw2eq : (BgpTable.mk t.table t.table_version t.pa_table).walk p2 =
        (([], []), ⟨t.table, t.table_version, t.pa_table⟩) := by
      simp only [BgpTable.walk, hr2, hw2]
      simp [hpa2]
    rw [hw1eq]
    dsimp only
    rw [hw2eq]
    simp [BgpTable.num_destinations, BgpTable.num_paths, BgpTable.num_pa_entries]
  | cons r S' =>
    have hA1 : (r :: S').foldl
        (fun m rr => AdvRoutes.entry m (PathAttributeTableEntry.new
          (DecisionProcessData.ofPayload p1) p1.path_attrs).get_pas
          (keyOf rr).1 rr.length) [] =
        [((PathAttributeTableEntry.new (DecisionProcessData.ofPayload p1)
          p1.path_attrs).get_pas, r :: S')] := by
      rw [List.foldl_cons]
      have hentry : AdvRoutes.entry [] (PathAttributeTableEntry.new
          (DecisionProcessData.ofPayload p1) p1.path_attrs).get_pas
          (keyOf r).1 r.length =
          [((PathAttributeTableEntry.new (DecisionProcessData.ofPayload p1)
            p1.path_attrs).get_pas, [r])] := by
        simp [AdvRoutes.entry, route_reassemble r (hv4 r (by simp))]
      rw [hentry, advAccum _ S' [r] (fun r' hr' => hv4 r' (by simp [hr']))]
      simp
    have hpaKeep : (t.pa_table.insert (PathAttributeTableEntry.new
          (DecisionProcessData.ofPayload p1) p1.path_attrs)).removeStale
        (heapRefs (t.table ++ (r :: S').map
          (fun rr => (keyOf rr, BgpTableEntry.new (PathAttributeTableEntry.new
            (DecisionProcessData.ofPayload p1) p1.path_attrs))))) =
        t.pa_table.insert (PathAttributeTableEntry.new
          (DecisionProcessData.ofPayload p1) p1.path_attrs) := by
      apply removeStale_eq_self
      intro e he
      rw [heapRefs_append, List.mem_append]
      rcases mem_of_mem_patInsert _ _ _ he with h | h
      · exact Or.inl (hwf1 _ h)
      · refine Or.inr ?_
        rw [h]
        simp [heapRefs, BgpTableEntry.new]
    have hw1eq : t.walk p1 =
        (([], [((PathAttributeTableEntry.new (DecisionProcessData.ofPayload p1)
            p1.path_attrs).get_pas, r :: S')]),
         ⟨t.table ++ (r :: S').map (fun rr => (keyOf rr, BgpTableEntry.new
            (PathAttributeTableEntry.new (DecisionProcessData.ofPayload p1)
              p1.path_attrs))),
          t.table_version + 1,
          t.pa_table.insert (PathAttributeTableEntry.new
            (DecisionProcessData.ofPayload p1) p1.path_attrs)⟩) := by
      simp only [BgpTable.walk, hr1, hw1]
      rw [hfilter, advLoop_fresh _ (r :: S') t.table [] [] hv4 habs hnd]
      dsimp only
      rw [hA1, hpaKeep]
      simp
    have hpaf : ((t.pa_table.insert (PathAttributeTableEntry.new
          (DecisionProcessData.ofPayload p1) p1.path_attrs)).insert
          (PathAttributeTableEntry.new (DecisionProcessData.ofPayload p2)
            p2.path_attrs)).removeStale (heapRefs t.table) = t.pa_table := by
      rw [removeStale_insert_cancel _ _ _
          (fun h => mem_patInsert_of_mem _ _ _ (hwf2 _ h)),
        removeStale_insert_cancel _ _ _ (fun h => hwf2 _ h),
        removeStale_eq_self _ _ hwf1]
    have hloop := withLoop_all
      (PathAttributeTableEntry.new (DecisionProcessData.ofPayload p2) p2.path_attrs)
      (PathAttributeTableEntry.new (DecisionProcessData.ofPayload p1) p1.path_attrs)
      hpeer2 (r :: S') t.table [] [] hv4 habs hnd
    have hw2eq : (BgpTable.mk
        (t.table ++ (r :: S').map (fun rr => (keyOf rr, BgpTableEntry.new
          (PathAttributeTableEntry.new (DecisionProcessData.ofPayload p1)
            p1.path_attrs))))
        (t.table_version + 1)
        (t.pa_table.insert (PathAttributeTableEntry.new
          (DecisionProcessData.ofPayload p1) p1.path_attrs))).walk p2 =
        ((r :: S', []),
         ⟨t.table, t.table_version + 2, t.pa_table⟩) := by
      simp only [BgpTable.walk, hr2, hw2]
      rw [hfilter, hloop]
      dsimp only
      rw [hpaf]
      simp
    rw [hw1eq]
    dsimp only
    rw [hw2eq]
    simp [BgpTable.num_destinations, BgpTable.num_paths, BgpTable.num_pa_entries]

/-- C5 witness: from the empty table, advertising the two concrete routes
from peer 1 and then withdrawing them restores all three counters and
withdraws exactly the advertised prefixes. -/
theorem c5_advertise_withdraw_roundtrip_witness :
    ((BgpTable.new.walk exPayloadAdv2).2.walk exPayloadWith2).2.num_destinations =
        BgpTable.new.num_destinations ∧
      ((BgpTable.new.walk exPayloadAdv2).2.walk exPayloadWith2).2.num_paths =
        BgpTable.new.num_paths ∧
      ((BgpTable.new.walk exPayloadAdv2).2.walk exPayloadWith2).2.num_pa_entries =
        BgpTable.new.num_pa_entries ∧
      ((BgpTable.new.walk exPayloadAdv2).2.walk exPayloadWith2).1.1 =
        [exRouteW, exRoute2] := by
  have h := c5_advertise_withdraw_roundtrip BgpTable.new exPayloadAdv2 exPayloadWith2
    [exRouteW, exRoute2] exEntryA (by decide) rfl rfl rfl rfl rfl
    (by decide) (by decide) (by decide) (by decide) (by decide)
  exact ⟨h.2.2.1, h.2.2.2.1, h.2.2.2.2.1, h.2.2.2.2.2.1⟩

theorem be16_decode (n : Nat) (h : n < 65536) :
    256 * (n / 256 % 256) + n % 256 = n := by
  omega

theorem be32_decode (n : Nat) (h : n < 4294967296) :
    ((n / 16777216 % 256 * 256 + n / 65536 % 256) * 256 + n / 256 % 256) * 256 +
      n % 256 = n := by
  omega

theorem serializeTlvs_length (tlvs : List Tlv)
    (h : ∀ t ∈ tlvs, t.param_length = t.param_value.length) :
    (serializeTlvs tlvs).length = (tlvs.map (fun t => 2 + t.param_length)).sum := by
  induction tlvs with
  | nil => simp [serializeTlvs]
  | cons t ts ih =>
    have ht := h t (by simp)
    simp only [serializeTlvs, List.flatMap_cons, List.length_append, List.map_cons,
      List.sum_cons] at *
    rw [ih (fun t' ht' => h t' (by simp [ht']))]
    simp [ht]
    omega

theorem length_le_tlv_sum (tlvs : List Tlv) :
    tlvs.length ≤ (tlvs.map (fun t => 2 + t.param_length)).sum := by
  induction tlvs with
  | nil => simp
  | cons t ts ih => simp; omega

/-- Helper: the TLV region decoder inverts the TLV region encoder given
enough fuel and well-formed length fields. -/
theorem decodeTlvs_serialize :
    ∀ (tlvs : List Tlv) (fuel : Nat),
      (∀ t ∈ tlvs, t.param_length = t.param_value.length) →
      tlvs.length ≤ fuel →
      decodeTlvs fuel (serializeTlvs tlvs) = .ok tlvs := by
  intro tlvs
  induction tlvs with
  | nil =>
    intro fuel _ _
    cases fuel <;> rfl
  | cons t ts ih =>
    intro fuel hwf hlen
    cases fuel with
    | zero => simp at hlen
    | succ f =>
      have hplen : t.param_length = t.param_value.length := hwf t (by simp)
      have hser : serializeTlvs (t :: ts) =
          t.param_type :: t.param_length ::
            (t.param_value ++ serializeTlvs ts) := by
        simp [serializeTlvs]
      rw [hser]
      simp only [decodeTlvs]
      rw [if_neg (by simp [hplen])]
      rw [hplen, List.take_left, List.drop_left,
        ih f (fun t' ht' => hwf t' (by simp [ht'])) (by simpa using hlen)]
      cases t with
      | mk ty l v =>
        simp_all
        rfl

/-- C9 counterexample: the spec decoder rejects the encoded header — the
source emits a marker of sixteen 0x01 octets where the specification's
decoder demands 0xFF and fails `ConnNotSynced` — and an IPv4 route whose
address has bits beyond the prefix length does not survive the
⌈prefix_length/8⌉-octet decode of the full-address encoding. -/
theorem c9_counterexample :
    decodeHeader (HeaderSerializer.serialize (Header.new 19 .Open)) =
        .error .ConnNotSynced ∧
      decodeRouteV4 (RouteSerializer.serialize exRouteHost) ≠
        .ok (exRouteHost, []) := by
  exact ⟨by decide, by decide⟩

/-- C9 amended: with the decoder modelled from the spec, decoding the encoded
octets is the identity for every constructible Notification, every
canonically-flagged PathAttr (Std form with flags bit 4 clear, or Ext form
with bit 4 set, length matching the value), and every builder-produced
Open whose fields fit their wire widths — with or without optional
parameters; the Header and Route encodings are not inverted by the spec's
decoder (see the counterexample). -/
theorem c9_roundtrip :
    (∀ (e : NotifErrorCode) (d : Nat),
        decodeNotification (NotificationSerializer.serialize (Notification.new e d)) =
          .ok (Notification.new e d)) ∧
    (∀ pa : PathAttr,
        (pa.attr_flags.testBit 4 = false ∧ pa.attr_len = .std pa.attr_value.length) ∨
          (pa.attr_flags.testBit 4 = true ∧ pa.attr_len = .ext pa.attr_value.length ∧
            pa.attr_value.length < 65536) →
        decodePathAttr (PathAttrSerializer.serialize pa) = .ok (pa, [])) ∧
    (∀ (ver my_as holdtime bgp_id : Nat) (params : List Tlv),
        my_as < 65536 → holdtime < 65536 → bgp_id < 4294967296 →
        (∀ t ∈ params, t.param_length = t.param_value.length) →
        decodeOpen (OpenSerializer.serialize
            (OpenBuilder.build ver my_as holdtime bgp_id params)) =
          .ok (OpenBuilder.build ver my_as holdtime bgp_id params, [])) := by
  refine ⟨?_, ?_, ?_⟩
  · intro e d
    rfl
  · intro pa hpa
    rcases hpa with ⟨hbit, hlen⟩ | ⟨hbit, hlen, hbound⟩
    · cases pa with
      | mk flags ty ln v =>
        simp only at hbit hlen
        subst hlen
        simp only [PathAttrSerializer.serialize, decodePathAttr, hbit]
        rw [if_neg (by simp)]
        simp [List.take_left, List.drop_left]
    · cases pa with
      | mk flags ty ln v =>
        simp only at hbit hlen hbound
        subst hlen
        have hl := be16_decode v.length hbound
        simp only [PathAttrSerializer.serialize, u16be, List.cons_append,
          List.nil_append, decodePathAttr, hbit, eq_self_iff_true, if_true]
        rw [hl, if_neg (lt_irrefl _), List.take_length, List.drop_length]
  · intro ver my_as holdtime bgp_id params hAS hHT hID hwf
    have h1 := be16_decode my_as hAS
    have h2 := be16_decode holdtime hHT
    have h3 := be32_decode bgp_id hID
    cases params with
    | nil =>
      have hbuild : OpenBuilder.build ver my_as holdtime bgp_id [] =
          ⟨ver, my_as, holdtime, bgp_id, 0, []⟩ := rfl
      rw [hbuild]
      simp only [OpenSerializer.serialize, u16be, u32be, List.cons_append,
        List.nil_append, List.append_nil]
      simp only [decodeOpen]
      rw [if_neg (by simp)]
      rw [h1, h2, h3]
      rfl
    | cons p ps =>
      have hbuild : OpenBuilder.build ver my_as holdtime bgp_id (p :: ps) =
          ⟨ver, my_as, holdtime, bgp_id,
            ((p :: ps).map (fun t => 2 + t.param_length)).sum, p :: ps⟩ := rfl
      obtain ⟨m, hm⟩ : ∃ m, ((p :: ps).map (fun t => 2 + t.param_length)).sum = m + 1 := by
        refine ⟨((p :: ps).map (fun t => 2 + t.param_length)).sum - 1, ?_⟩
        simp only [List.map_cons, List.sum_cons]
        omega
      have hlenser : (serializeTlvs (p :: ps)).length = m + 1 := by
        rw [serializeTlvs_length _ hwf, hm]
      have htlvs : decodeTlvs (m + 1) (serializeTlvs (p :: ps)) = .ok (p :: ps) := by
        rw [← hm]
        exact decodeTlvs_serialize (p :: ps) _ hwf (length_le_tlv_sum _)
      rw [hbuild, hm]
      simp only [OpenSerializer.serialize, u16be, u32be, List.cons_append,
        List.nil_append]
      simp only [decodeOpen]
      rw [if_neg (by rw [hlenser]; simp)]
      rw [List.take_of_length_le (le_of_eq hlenser),
        List.drop_eq_nil_of_le (le_of_eq hlenser), htlvs]
      rw [h1, h2, h3]
      rfl

/-- C9 witness: the concrete roundtrips — the Open of the encoder tests with
its two optional parameters, a Notification with subcode, and the ORIGIN
attribute. -/
theorem c9_roundtrip_witness :
    decodeNotification (NotificationSerializer.serialize
        (Notification.new (.OpenMessageError 2) 1)) =
        .ok (Notification.new (.OpenMessageError 2) 1) ∧
      decodePathAttr (PathAttrSerializer.serialize exPa) = .ok (exPa, []) ∧
      decodeOpen (OpenSerializer.serialize (OpenBuilder.build 4 65000 180 1
          [Tlv.new 1 [1, 1, 1, 1, 1, 1], Tlv.new 1 [1]])) =
        .ok (OpenBuilder.build 4 65000 180 1
          [Tlv.new 1 [1, 1, 1, 1, 1, 1], Tlv.new 1 [1]], []) :=
  ⟨c9_roundtrip.1 (.OpenMessageError 2) 1,
   c9_roundtrip.2.1 exPa (Or.inl (by decide)),
   c9_roundtrip.2.2 4 65000 180 1 [Tlv.new 1 [1, 1, 1, 1, 1, 1], Tlv.new 1 [1]]
     (by decide) (by decide) (by decide) (by decide)⟩

end BgpOxide
